import Mathlib

/-!
# jiri project commands: clean, list, shell-prompt, poll

A shallow embedding of `src/project.go` (package main of the jiri tool).

* A Go map that the code ranges over is an association list in iteration
  order whose keys are pairwise distinct (`GoMap.IsMap`); the theorems
  quantify over every such list, hence over every iteration order.
* The collaborators that live in other packages (`project.GetProjectStates`,
  `project.CurrentProjectKey`, `project.LocalProjects`, `FindUnique`,
  `project.CleanupProjects`, `project.PollProjects`, `util.LoadConfig`,
  `Config.Projects`, `Config.ProjectTests`, `json.MarshalIndent`, the `%q`
  verb) are parameters of the embedded functions.
* Output written with `fmt.Fprintf` is the list of the lines written.
-/

namespace Jiri

/-! ## Go maps -/

namespace GoMap

variable {K V : Type} [DecidableEq K]

/-- The keys of a map, in iteration order. -/
def keys (m : List (K × V)) : List K := m.map Prod.fst

/-- A list of entries is a map when no key occurs twice. -/
def IsMap (m : List (K × V)) : Prop := (keys m).Nodup

/-- Map read `m[k]` in its two-result form. -/
def get? : List (K × V) → K → Option V
  | [], _ => none
  | (k1, v) :: rest, k => if k1 = k then some v else get? rest k

/-- The builtin `delete(m, k)`. -/
def delete (m : List (K × V)) (k : K) : List (K × V) :=
  m.filter (fun e => decide (e.1 ≠ k))

end GoMap

/-- How a run of a command can end other than normally: an `error` value
returned to the caller, or a run-time panic of the Go program. -/
inductive Failure where
  | error (msg : String)
  | runtimePanic (msg : String)
deriving DecidableEq, Repr

/-! ## Data model (package project, as used by project.go) -/

/-- Modelled from the spec: ProjectKey is a unique, totally ordered identifier
derived from the identity fields of a project; `sort.Sort` on `ProjectKeys`
orders the keys as strings. The type is declared in package project. -/
abbrev ProjectKey := String

/-- The fields of `project.Project` read by project.go. -/
structure Project where
  Name : String
  Remote : String
  Path : String
deriving DecidableEq, Repr

/-- One entry of `ProjectState.Branches`. -/
structure BranchState where
  Name : String
  HasGerritMessage : Bool
deriving DecidableEq, Repr

/-- The fields of `project.ProjectState` read by project.go. -/
structure ProjectState where
  Branches : List BranchState
  CurrentBranch : String
  HasUncommitted : Bool
  HasUntracked : Bool
  Project : Project
deriving DecidableEq, Repr

/-- The result of `project.GetProjectStates`: a map from key to state. -/
abbrev ProjectStates := List (ProjectKey × ProjectState)

/-- The `sort.Sort(keys)` call on a `ProjectKeys` slice. -/
def sortKeys (keys : List ProjectKey) : List ProjectKey :=
  keys.insertionSort (fun a b => a ≤ b)

/-- Go standard library `filepath.Base` for slash-separated paths: the last
element of the path, after trailing slashes are removed; "." for the empty
path and "/" for a path of slashes only. -/
def filepathBase (path : String) : String :=
  if path = "" then "."
  else
    let stripped := (path.toList.reverse.dropWhile (fun c => c = '/')).reverse
    let last := (stripped.reverse.takeWhile (fun c => c ≠ '/')).reverse
    if last = [] then "/" else String.mk last

/-! ## jiri project shell-prompt (project.go, lines 142-190) -/

/-- Lines 161-169: the status suffix of one project. -/
def promptStatus (checkDirtyFlag : Bool) (state : ProjectState) : String :=
  let status := ""
  if checkDirtyFlag then
    let status := if state.HasUncommitted then status ++ "*" else status
    let status := if state.HasUntracked then status ++ "%" else status
    status
  else status

/-- Line 170: `short := state.CurrentBranch + status`. -/
def promptShort (checkDirtyFlag : Bool) (state : ProjectState) : String :=
  state.CurrentBranch ++ promptStatus checkDirtyFlag state

/-- Line 171: `long := filepath.Base(states[key].Project.Name) + ":" + short`. -/
def promptLong (checkDirtyFlag : Bool) (state : ProjectState) : String :=
  filepathBase state.Project.Name ++ ":" ++ promptShort checkDirtyFlag state

/-- Lines 179-182: the `pristine` flag computed for a project that is not
the current one. -/
def promptPristine (checkDirtyFlag : Bool) (state : ProjectState) : Bool :=
  let pristine := decide (state.CurrentBranch = "master")
  if checkDirtyFlag then
    pristine && !state.HasUncommitted && !state.HasUntracked
  else pristine

/-- Lines 159-187: the loop over the sorted keys, threading `statuses`.
Reading the fields of `states[key]` for a key without a state is a
run-time panic. -/
def shellPromptLoop (states : ProjectStates) (currentProjectKey : ProjectKey)
    (checkDirtyFlag showNameFlag : Bool) :
    List ProjectKey → List String → Except Failure (List String)
  | [], statuses => .ok statuses
  | key :: rest, statuses =>
    match GoMap.get? states key with
    | none => .error (.runtimePanic "invalid memory address or nil pointer dereference")
    | some state =>
      let short := promptShort checkDirtyFlag state
      let long := promptLong checkDirtyFlag state
      if key = currentProjectKey then
        if showNameFlag then
          shellPromptLoop states currentProjectKey checkDirtyFlag showNameFlag rest
            ([long] ++ statuses)
        else
          shellPromptLoop states currentProjectKey checkDirtyFlag showNameFlag rest
            ([short] ++ statuses)
      else
        if !promptPristine checkDirtyFlag state then
          shellPromptLoop states currentProjectKey checkDirtyFlag showNameFlag rest
            (statuses ++ [long])
        else
          shellPromptLoop states currentProjectKey checkDirtyFlag showNameFlag rest statuses

/-- Lines 147-187 for a given map of states and current key: collect the
keys, sort them, run the loop from `var statuses []string`. -/
def shellPromptStatuses (states : ProjectStates) (currentProjectKey : ProjectKey)
    (checkDirtyFlag showNameFlag : Bool) : Except Failure (List String) :=
  shellPromptLoop states currentProjectKey checkDirtyFlag showNameFlag
    (sortKeys (GoMap.keys states)) []

/-- The command `runProjectShellPrompt`: the line it prints, or the failure.
`getProjectStates` is `project.GetProjectStates(jirix, ·)` and
`currentProjectKey` the outcome of `project.CurrentProjectKey(jirix)`. -/
def runProjectShellPrompt (getProjectStates : Bool → Except String ProjectStates)
    (currentProjectKey : Except String ProjectKey)
    (checkDirtyFlag showNameFlag : Bool) : Except Failure String :=
  match getProjectStates checkDirtyFlag with
  | .error err => .error (.error err)
  | .ok states =>
    match currentProjectKey with
    | .error err => .error (.error err)
    | .ok current =>
      match shellPromptStatuses states current checkDirtyFlag showNameFlag with
      | .error f => .error f
      | .ok statuses => .ok (String.intercalate "," statuses)

/-- Lines 172-177: the entry written for the current project. -/
def promptCurrent (checkDirtyFlag showNameFlag : Bool) (state : ProjectState) : String :=
  if showNameFlag then promptLong checkDirtyFlag state else promptShort checkDirtyFlag state

/-! ## jiri project list (project.go, lines 91-127) -/

/-- Line 106: the `pristine` flag of the listing. -/
def listPristine (state : ProjectState) : Bool :=
  decide (state.Branches.length = 1) && decide (state.CurrentBranch = "master") &&
    !state.HasUncommitted && !state.HasUntracked

/-- Line 111: the project line; `quote` is the `%q` verb of package fmt. -/
def projectLine (quote : String → String) (state : ProjectState) : String :=
  "name=" ++ quote state.Project.Name ++ " remote=" ++ quote state.Project.Remote ++
    " path=" ++ quote state.Project.Path

/-- Lines 114-122: the line written for one branch. -/
def branchLine (state : ProjectState) (branch : BranchState) : String :=
  let s := "  "
  let s := if branch.Name = state.CurrentBranch then s ++ "* " else s
  let s := s ++ branch.Name
  let s := if branch.HasGerritMessage then s ++ " (exported to gerrit)" else s
  s

/-- Lines 111-124: the lines written for one project that is listed. -/
def listBlock (quote : String → String) (branchesFlag : Bool) (state : ProjectState) :
    List String :=
  projectLine quote state ::
    (if branchesFlag then state.Branches.map (branchLine state) else [])

/-- Lines 103-125: the loop over the sorted keys; the value is the list of
lines written to stdout. -/
def listLoop (quote : String → String) (states : ProjectStates)
    (noPristineFlag branchesFlag : Bool) : List ProjectKey → Except Failure (List String)
  | [] => .ok []
  | key :: rest =>
    match GoMap.get? states key with
    | none => .error (.runtimePanic "invalid memory address or nil pointer dereference")
    | some state =>
      let written :=
        if noPristineFlag && listPristine state then []
        else listBlock quote branchesFlag state
      match listLoop quote states noPristineFlag branchesFlag rest with
      | .error f => .error f
      | .ok more => .ok (written ++ more)

/-- The command `runProjectList`: the lines it writes to stdout, or the
failure. `getProjectStates` is `project.GetProjectStates(jirix, ·)`. -/
def runProjectList (quote : String → String)
    (getProjectStates : Bool → Except String ProjectStates)
    (noPristineFlag branchesFlag : Bool) : Except Failure (List String) :=
  match getProjectStates noPristineFlag with
  | .error err => .error (.error err)
  | .ok states =>
    listLoop quote states noPristineFlag branchesFlag (sortKeys (GoMap.keys states))

/-! ## jiri project clean (project.go, lines 59-81) -/

/-- The type `project.Projects`, a map from key to project. -/
abbrev Projects := List (ProjectKey × Project)

/-- A variable of map type: `nil` after `var m T`, or a map that exists. -/
inductive MapVar (α : Type) where
  | nil
  | made (m : α)
deriving DecidableEq, Repr

/-- Map write `m[k] = v` on a map that exists. -/
def GoMap.set {K V : Type} [DecidableEq K] (m : List (K × V)) (k : K) (v : V) :
    List (K × V) :=
  match GoMap.get? m k with
  | some _ => m.map (fun e => if e.1 = k then (k, v) else e)
  | none => m ++ [(k, v)]

/-- What a run of `runProjectClean` did: the (name, error) pairs written to
stderr by line 69, the argument of the `project.CleanupProjects` call if the
call was reached, and how the run ended. -/
structure CleanRun where
  stderr : List (String × String)
  cleanup : Option (MapVar Projects)
  outcome : Except Failure Unit

/-- Lines 66-73: the loop over the arguments. `findUnique` is
`localProjects.FindUnique`, which returns a project and an error (`none` for
a nil error); `key` is the method `Project.Key`. The value is the stderr
written so far and the variable `projects`, or the panic of a write to a
nil map. -/
def cleanResolve (findUnique : String → Project × Option String) (key : Project → ProjectKey) :
    List String → List (String × String) → MapVar Projects →
      List (String × String) × Except Failure (MapVar Projects)
  | [], stderr, projects => (stderr, .ok projects)
  | arg :: rest, stderr, projects =>
    match findUnique arg with
    | (p, some err) =>
      cleanResolve findUnique key rest (stderr ++ [(p.Name, err)]) projects
    | (p, none) =>
      match projects with
      | .nil => (stderr, .error (.runtimePanic "assignment to entry in nil map"))
      | .made m => cleanResolve findUnique key rest stderr (.made (GoMap.set m (key p) p))

/-- The command `runProjectClean`. `localProjects` is the outcome of
`project.LocalProjects(jirix, project.FullScan)`, `findUnique` the lookup in
the map it returned, `cleanupProjects` is `project.CleanupProjects(jirix, ·, ·)`. -/
def runProjectClean (localProjects : Except String Projects)
    (findUnique : Projects → String → Project × Option String)
    (key : Project → ProjectKey)
    (cleanupProjects : MapVar Projects → Bool → Option String)
    (cleanupBranchesFlag : Bool) (args : List String) : CleanRun :=
  match localProjects with
  | .error err => { stderr := [], cleanup := none, outcome := .error (.error err) }
  | .ok localProjects =>
    let resolved : List (String × String) × Except Failure (MapVar Projects) :=
      if args.length > 0 then
        cleanResolve (findUnique localProjects) key args [] MapVar.nil
      else ([], .ok (MapVar.made localProjects))
    match resolved with
    | (stderr, .error f) => { stderr := stderr, cleanup := none, outcome := .error f }
    | (stderr, .ok projects) =>
      match cleanupProjects projects cleanupBranchesFlag with
      | some err => { stderr := stderr, cleanup := some projects, outcome := .error (.error err) }
      | none => { stderr := stderr, cleanup := some projects, outcome := .ok () }

/-! ## jiri project poll (project.go, lines 206-252) -/

/-- One change of `project.Update`, a record of strings. -/
structure CL where
  Author : String
  Email : String
  Description : String
deriving DecidableEq, Repr

/-- The type `project.Update`: a map from project name to its changes. -/
abbrev Update := List (String × List CL)

/-- The two methods of `util.Config` called by `runProjectPoll`. -/
structure Config where
  Projects : List String
  ProjectTests : List String → List String

/-- The local map `testProjects`, which the code only reads by key. -/
abbrev TestProjects := String → Option (List String)

/-- Line 220: `testProjects[test] = append(testProjects[test], project)`. -/
def testProjectsAppend (testProjects : TestProjects) (test project : String) : TestProjects :=
  fun t => if t = test then some ((testProjects test).getD [] ++ [project]) else testProjects t

/-- Lines 219-221: the inner loop over the tests of one project. -/
def testProjectsInner (project : String) : List String → TestProjects → TestProjects
  | [], testProjects => testProjects
  | test :: rest, testProjects =>
    testProjectsInner project rest (testProjectsAppend testProjects test project)

/-- Lines 218-222: the outer loop over the projects of the configuration. -/
def testProjectsOuter (config : Config) : List String → TestProjects → TestProjects
  | [], testProjects => testProjects
  | project :: rest, testProjects =>
    testProjectsOuter config rest
      (testProjectsInner project (config.ProjectTests [project]) testProjects)

/-- Lines 217-222: the map from tests to projects built from the configuration. -/
def buildTestProjects (config : Config) : TestProjects :=
  testProjectsOuter config config.Projects (fun _ => none)

/-- The errors `runProjectPoll` returns. -/
inductive PollError where
  | loadConfig (err : String)
  | unknownTest (arg : String)
  | pollProjects (err : String)
  | marshalIndent (err : String)
deriving DecidableEq, Repr

/-- Lines 223-229: the loop over the arguments, which grows `projectSet` or
returns the error of line 226 for an argument that is not a key. -/
def pollResolve (testProjects : TestProjects) :
    List String → Finset String → Except PollError (Finset String)
  | [], projectSet => .ok projectSet
  | arg :: rest, projectSet =>
    match testProjects arg with
    | none => .error (.unknownTest arg)
    | some projects => pollResolve testProjects rest (projectSet ∪ projects.toFinset)

/-- Lines 209-230: the set of project names handed to the poll. -/
def pollProjectSet (loadConfig : Except String Config) (args : List String) :
    Except PollError (Finset String) :=
  let projectSet : Finset String := ∅
  if args.length > 0 then
    match loadConfig with
    | .error err => .error (.loadConfig err)
    | .ok config => pollResolve (buildTestProjects config) args projectSet
  else .ok projectSet

/-- Lines 237-241: the loop that removes the projects without changes; it
ranges over the keys the map had when the loop started. -/
def pruneLoop : List String → Update → Update
  | [], update => update
  | project :: rest, update =>
    let changes := (GoMap.get? update project).getD []
    if changes.length = 0 then pruneLoop rest (GoMap.delete update project)
    else pruneLoop rest update

/-- Lines 236-241 on the map returned by the poll. -/
def pruneUpdate (update : Update) : Update :=
  pruneLoop (GoMap.keys update) update

/-- What a run of `runProjectPoll` did: the set handed to
`project.PollProjects` if the call was reached, the text written to stdout,
and the error returned, if any. -/
structure PollRun where
  polled : Option (Finset String)
  stdout : List String
  err : Option PollError

/-- The command `runProjectPoll`. `loadConfig` is the outcome of
`util.LoadConfig(jirix)`, `pollProjects` is `project.PollProjects(jirix, ·)`,
`marshalIndent` is `json.MarshalIndent(·, "", "  ")`. -/
def runProjectPoll (loadConfig : Except String Config)
    (pollProjects : Finset String → Except String Update)
    (marshalIndent : Update → Except String String) (args : List String) : PollRun :=
  match pollProjectSet loadConfig args with
  | .error e => { polled := none, stdout := [], err := some e }
  | .ok projectSet =>
    match pollProjects projectSet with
    | .error err => { polled := some projectSet, stdout := [], err := some (.pollProjects err) }
    | .ok update =>
      let update := pruneUpdate update
      if update.length > 0 then
        match marshalIndent update with
        | .error err =>
          { polled := some projectSet, stdout := [], err := some (.marshalIndent err) }
        | .ok bytes => { polled := some projectSet, stdout := [bytes ++ "\n"], err := none }
      else { polled := some projectSet, stdout := [], err := none }

/-! ## The pristine predicate of the data model -/

/-- The pristine predicate in the words of the specification: exactly one
branch, that branch is "master", neither uncommitted nor untracked changes. -/
def specPristine (state : ProjectState) : Bool :=
  match state.Branches with
  | [branch] =>
    decide (branch.Name = "master") && !state.HasUncommitted && !state.HasUntracked
  | _ => false

/-- The invariant of the data model on a ProjectState: unless the project
has no branch, the current branch names one of the branches. -/
def ProjectState.Invariant (state : ProjectState) : Prop :=
  state.Branches = [] ∨ ∃ branch ∈ state.Branches, branch.Name = state.CurrentBranch

/-! ## Entries in key order -/

/-- The entries of `m` at the keys `ks`, in the order of `ks`. -/
def GoMap.entriesAt {K V : Type} [DecidableEq K] (m : List (K × V)) (ks : List K) :
    List (K × V) :=
  ks.filterMap (fun k => (GoMap.get? m k).map (fun v => (k, v)))

/-- The entries of a map of states in ascending key order. -/
def sortedEntries (states : ProjectStates) : ProjectStates :=
  GoMap.entriesAt states (sortKeys (GoMap.keys states))

/-! ## Concrete maps of states -/

instance GoMap.instDecidableIsMap {K V : Type} [DecidableEq K] (m : List (K × V)) :
    Decidable (GoMap.IsMap m) :=
  inferInstanceAs (Decidable (GoMap.keys m).Nodup)

/-- Project A of the scenario: only branch master, clean. -/
def scenarioA : ProjectState :=
  { Branches := [{ Name := "master", HasGerritMessage := false }],
    CurrentBranch := "master", HasUncommitted := false, HasUntracked := false,
    Project := { Name := "A", Remote := "https://example.com/A", Path := "/ws/A" } }

/-- Project B of the scenario: branches master and feature, on feature, clean. -/
def scenarioB : ProjectState :=
  { Branches := [{ Name := "master", HasGerritMessage := false },
      { Name := "feature", HasGerritMessage := true }],
    CurrentBranch := "feature", HasUncommitted := false, HasUntracked := false,
    Project := { Name := "B", Remote := "https://example.com/B", Path := "/ws/B" } }

/-- Project B with the same two branches, but on master. -/
def scenarioBOnMaster : ProjectState :=
  { scenarioB with CurrentBranch := "master" }

/-- The registry of the scenario, B iterated before A. -/
def scenarioStates : ProjectStates := [("B", scenarioB), ("A", scenarioA)]

/-- The registry of the scenario with B on master. -/
def scenarioStatesOnMaster : ProjectStates := [("A", scenarioA), ("B", scenarioBOnMaster)]

/-! ## Concrete inputs of the poll and of the clean-up -/

/-- A configuration with one project "p" whose only test is "t". -/
def pollConfig : Config :=
  { Projects := ["p"], ProjectTests := fun projects => if projects = ["p"] then ["t"] else [] }

/-- An update in which "p" has one change and "q" has none. -/
def pollUpdate : Update :=
  [("q", []), ("p", [{ Author := "a", Email := "a@example.com", Description := "fix" }])]

/-- A registry with the single project A. -/
def cleanLocalProjects : Projects :=
  [("A=https://example.com/A", scenarioA.Project)]

/-- A lookup by name: the project and a nil error when exactly one project
has the name, the zero project and an error otherwise. -/
def cleanFindUnique (localProjects : Projects) (arg : String) : Project × Option String :=
  match localProjects.filter (fun e => decide (e.2.Name = arg)) with
  | [e] => (e.2, none)
  | _ => ({ Name := "", Remote := "", Path := "" }, some "no unique project")

/-- A project key made of name and remote. -/
def cleanKey (p : Project) : ProjectKey := p.Name ++ "=" ++ p.Remote

/-! ## Lemmas on Go maps -/

namespace GoMap

variable {K V : Type} [DecidableEq K]

theorem get?_mem {m : List (K × V)} {k : K} {v : V} (h : get? m k = some v) :
    (k, v) ∈ m := by
  induction m with
  | nil => simp [get?] at h
  | cons e rest ih =>
    obtain ⟨k1, v1⟩ := e
    by_cases hk : k1 = k
    · simp [get?, hk] at h
      simp [hk, h]
    · simp [get?, hk] at h
      exact List.mem_cons_of_mem _ (ih h)

theorem get?_of_mem {m : List (K × V)} (hm : IsMap m) {k : K} {v : V}
    (h : (k, v) ∈ m) : get? m k = some v := by
  induction m with
  | nil => simp at h
  | cons e rest ih =>
    obtain ⟨k1, v1⟩ := e
    simp only [IsMap, keys, List.map_cons, List.nodup_cons] at hm
    rcases List.mem_cons.mp h with h1 | h1
    · cases h1
      simp [get?]
    · have hne : k1 ≠ k := by
        intro hk
        subst hk
        exact hm.1 (List.mem_map.mpr ⟨(k1, v), h1, rfl⟩)
      simp only [get?, hne, if_false]
      exact ih hm.2 h1

theorem get?_isSome_of_mem_keys {m : List (K × V)} {k : K} (h : k ∈ keys m) :
    ∃ v, get? m k = some v := by
  induction m with
  | nil => simp [keys] at h
  | cons e rest ih =>
    obtain ⟨k1, v1⟩ := e
    by_cases hk : k1 = k
    · exact ⟨v1, by simp [get?, hk]⟩
    · have : k ∈ keys rest := by
        simp only [keys, List.map_cons, List.mem_cons] at h
        rcases h with h | h
        · exact absurd h.symm hk
        · exact h
      obtain ⟨v, hv⟩ := ih this
      exact ⟨v, by simp [get?, hk, hv]⟩

theorem get?_eq_none {m : List (K × V)} {k : K} (h : k ∉ keys m) : get? m k = none := by
  cases hg : get? m k with
  | none => rfl
  | some v => exact absurd (List.mem_map.mpr ⟨(k, v), get?_mem hg, rfl⟩) h

theorem entriesAt_cons_some {m : List (K × V)} {k : K} {v : V} (ks : List K)
    (h : get? m k = some v) : entriesAt m (k :: ks) = (k, v) :: entriesAt m ks := by
  simp [entriesAt, List.filterMap_cons, h]

theorem entriesAt_keys_of_subset (m : List (K × V)) (l : List (K × V)) (hm : IsMap m)
    (hl : ∀ e ∈ l, e ∈ m) : entriesAt m (keys l) = l := by
  induction l with
  | nil => rfl
  | cons e rest ih =>
    obtain ⟨k, v⟩ := e
    have h1 : get? m k = some v := get?_of_mem hm (hl _ (List.mem_cons_self _ _))
    have : keys ((k, v) :: rest) = k :: keys rest := rfl
    rw [this, entriesAt_cons_some _ h1, ih (fun e he => hl e (List.mem_cons_of_mem _ he))]

theorem entriesAt_keys_self (m : List (K × V)) (hm : IsMap m) : entriesAt m (keys m) = m :=
  entriesAt_keys_of_subset m m hm (fun _ h => h)

theorem entriesAt_perm {m : List (K × V)} (hm : IsMap m) {ks : List K}
    (hp : ks.Perm (keys m)) : (entriesAt m ks).Perm m := by
  have h := List.Perm.filterMap (fun k => (get? m k).map (fun v => (k, v))) hp
  have h2 := entriesAt_keys_self m hm
  unfold entriesAt at h2 ⊢
  rw [h2] at h
  exact h

theorem keys_entriesAt_sublist (m : List (K × V)) (ks : List K) :
    (keys (entriesAt m ks)).Sublist ks := by
  induction ks with
  | nil => simp [entriesAt, keys]
  | cons k rest ih =>
    cases hg : get? m k with
    | none =>
      have : entriesAt m (k :: rest) = entriesAt m rest := by
        simp [entriesAt, List.filterMap_cons, hg]
      rw [this]
      exact ih.trans (List.sublist_cons_self _ _)
    | some v =>
      rw [entriesAt_cons_some _ hg]
      exact ih.cons₂ k

theorem filter_key_eq {m : List (K × V)} (hm : IsMap m) {k : K} {v : V}
    (h : (k, v) ∈ m) : m.filter (fun e => decide (e.1 = k)) = [(k, v)] := by
  induction m with
  | nil => simp at h
  | cons e rest ih =>
    obtain ⟨k1, v1⟩ := e
    simp only [IsMap, keys, List.map_cons, List.nodup_cons] at hm
    rcases List.mem_cons.mp h with h1 | h1
    · cases h1
      have : rest.filter (fun e => decide (e.1 = k)) = [] := by
        rw [List.filter_eq_nil_iff]
        intro e he hek
        simp only [decide_eq_true_eq] at hek
        exact hm.1 (List.mem_map.mpr ⟨e, he, hek⟩)
      simp [List.filter_cons, this]
    · have hne : k1 ≠ k := by
        intro hk
        subst hk
        exact hm.1 (List.mem_map.mpr ⟨(k1, v), h1, rfl⟩)
      simp only [List.filter_cons, hne, decide_False, Bool.false_eq_true, if_false]
      exact ih hm.2 h1

theorem filter_key_eq_nil {m : List (K × V)} {k : K} (h : k ∉ keys m) :
    m.filter (fun e => decide (e.1 = k)) = [] := by
  rw [List.filter_eq_nil_iff]
  intro e he hek
  simp only [decide_eq_true_eq] at hek
  exact h (List.mem_map.mpr ⟨e, he, hek⟩)

end GoMap

theorem GoMap.mem_keys_of_mem {K V : Type} [DecidableEq K] {m : List (K × V)} {e : K × V}
    (h : e ∈ m) : e.1 ∈ GoMap.keys m :=
  List.mem_map.mpr ⟨e, h, rfl⟩

/-! ## Lemmas on the sorted keys -/

theorem sortKeys_perm (ks : List ProjectKey) : (sortKeys ks).Perm ks :=
  List.perm_insertionSort _ ks

theorem sortKeys_pairwise_le (ks : List ProjectKey) :
    (sortKeys ks).Pairwise (fun a b => a ≤ b) :=
  List.sorted_insertionSort (fun a b : String => a ≤ b) ks

theorem sortKeys_pairwise_lt {ks : List ProjectKey} (h : ks.Nodup) :
    (sortKeys ks).Pairwise (fun a b => a < b) := by
  have h1 := sortKeys_pairwise_le ks
  have h2 : (sortKeys ks).Nodup := (sortKeys_perm ks).nodup_iff.mpr h
  have h3 := h1.and h2
  exact h3.imp (fun hab => lt_of_le_of_ne hab.1 hab.2)

theorem sortKeys_mem {ks : List ProjectKey} {k : ProjectKey} :
    k ∈ sortKeys ks ↔ k ∈ ks :=
  (sortKeys_perm ks).mem_iff

theorem sortedEntries_perm {states : ProjectStates} (hm : GoMap.IsMap states) :
    (sortedEntries states).Perm states :=
  GoMap.entriesAt_perm hm (sortKeys_perm _)

theorem sortedEntries_pairwise {states : ProjectStates} (hm : GoMap.IsMap states) :
    (sortedEntries states).Pairwise (fun a b => a.1 < b.1) := by
  have h1 : (GoMap.keys (sortedEntries states)).Pairwise (fun a b => a < b) :=
    (sortKeys_pairwise_lt hm).sublist (GoMap.keys_entriesAt_sublist _ _)
  exact (List.pairwise_map.mp h1)

theorem sortedEntries_isMap {states : ProjectStates} (hm : GoMap.IsMap states) :
    GoMap.IsMap (sortedEntries states) := by
  have h : (GoMap.keys (sortedEntries states)).Perm (GoMap.keys states) :=
    (sortedEntries_perm hm).map Prod.fst
  exact h.nodup_iff.mpr hm

/-- Two lists of entries with the same elements and strictly ascending keys
are equal. -/
theorem eq_of_perm_of_pairwise_key {l1 l2 : ProjectStates} (hp : l1.Perm l2)
    (h1 : l1.Pairwise (fun a b => a.1 < b.1)) (h2 : l2.Pairwise (fun a b => a.1 < b.1)) :
    l1 = l2 := by
  have : IsAntisymm (ProjectKey × ProjectState) (fun a b => a.1 < b.1) :=
    ⟨fun a b hab hba => absurd hab (lt_asymm hba)⟩
  exact List.eq_of_perm_of_sorted hp h1 h2

/-! ## The shell-prompt loop in closed form -/

theorem shellPromptLoop_eq (states : ProjectStates) (current : ProjectKey)
    (cd sn : Bool) (ks : List ProjectKey) (hks : ∀ k ∈ ks, k ∈ GoMap.keys states)
    (acc : List String) :
    shellPromptLoop states current cd sn ks acc =
      .ok ((((GoMap.entriesAt states ks).filter (fun e => decide (e.1 = current))).reverse.map
              (fun e => promptCurrent cd sn e.2)) ++ acc ++
            (((GoMap.entriesAt states ks).filter
              (fun e => decide (e.1 ≠ current) && !promptPristine cd e.2)).map
              (fun e => promptLong cd e.2))) := by
  induction ks generalizing acc with
  | nil => simp [shellPromptLoop, GoMap.entriesAt]
  | cons k rest ih =>
    obtain ⟨st, hst⟩ := GoMap.get?_isSome_of_mem_keys (hks k (List.mem_cons_self _ _))
    have hrest : ∀ k ∈ rest, k ∈ GoMap.keys states :=
      fun k hk => hks k (List.mem_cons_of_mem _ hk)
    rw [GoMap.entriesAt_cons_some _ hst]
    simp only [shellPromptLoop, hst]
    by_cases hk : k = current
    · cases sn <;>
        simp [hk, ih hrest, List.filter_cons, promptCurrent]
    · cases hp : promptPristine cd st <;>
        simp [hk, hp, ih hrest, List.filter_cons]

/-- The statuses in closed form: the entry of the current project, if it
has a state, then the long entries of the other projects that are not
pristine for the prompt, in ascending key order. -/
theorem shellPromptStatuses_eq (states : ProjectStates) (current : ProjectKey)
    (cd sn : Bool) (hm : GoMap.IsMap states) :
    shellPromptStatuses states current cd sn =
      .ok (((GoMap.get? states current).map (promptCurrent cd sn)).toList ++
        ((sortedEntries states).filter
          (fun e => decide (e.1 ≠ current) && !promptPristine cd e.2)).map
          (fun e => promptLong cd e.2)) := by
  unfold shellPromptStatuses
  rw [shellPromptLoop_eq states current cd sn _ (fun k hk => sortKeys_mem.mp hk)]
  have hfront : ((GoMap.entriesAt states (sortKeys (GoMap.keys states))).filter
      (fun e => decide (e.1 = current))).reverse.map (fun e => promptCurrent cd sn e.2) =
      ((GoMap.get? states current).map (promptCurrent cd sn)).toList := by
    change ((sortedEntries states).filter _).reverse.map _ = _
    cases hg : GoMap.get? states current with
    | none =>
      have hnot : current ∉ GoMap.keys (sortedEntries states) := by
        intro hc
        have hc2 : current ∈ GoMap.keys states :=
          ((sortedEntries_perm hm).map Prod.fst).mem_iff.mp hc
        obtain ⟨v, hv⟩ := GoMap.get?_isSome_of_mem_keys hc2
        rw [hg] at hv
        cases hv
      rw [GoMap.filter_key_eq_nil hnot]
      rfl
    | some st =>
      have hmem : (current, st) ∈ sortedEntries states :=
        (sortedEntries_perm hm).mem_iff.mpr (GoMap.get?_mem hg)
      rw [GoMap.filter_key_eq (sortedEntries_isMap hm) hmem]
      rfl
  rw [hfront]
  simp [sortedEntries]

/-! ## Lemmas on the concrete registries and on the prompt filter -/

theorem sortKeys_scenarioStates : sortKeys (GoMap.keys scenarioStates) = ["A", "B"] := by
  simp [sortKeys, GoMap.keys, scenarioStates, List.insertionSort, List.orderedInsert]
  decide

theorem sortKeys_scenarioStatesOnMaster :
    sortKeys (GoMap.keys scenarioStatesOnMaster) = ["A", "B"] := by
  simp [sortKeys, GoMap.keys, scenarioStatesOnMaster, List.insertionSort, List.orderedInsert]
  decide

/-- The filter of the prompt loop, in the words of the specification. -/
theorem promptFilter_eq (current : ProjectKey) (cd : Bool) (l : ProjectStates) :
    l.filter (fun e => decide (e.1 ≠ current) && !promptPristine cd e.2) =
      l.filter (fun e => decide (e.1 ≠ current ∧
        ¬ (e.2.CurrentBranch = "master" ∧
          (cd = true → e.2.HasUncommitted = false ∧ e.2.HasUntracked = false)))) := by
  apply List.filter_congr
  intro e _
  cases cd <;> simp [promptPristine, Bool.or_assoc]

/-- The statuses of the prompt as the entry of the current project followed
by the long entries of a key-sorted list of the other projects that are not
pristine for the prompt. -/
theorem shellPromptStatuses_spec (states : ProjectStates) (current : ProjectKey)
    (checkDirty showName : Bool) (hm : GoMap.IsMap states) :
    ∃ l : ProjectStates,
      l.Perm (states.filter (fun e => decide (e.1 ≠ current ∧
        ¬ (e.2.CurrentBranch = "master" ∧
          (checkDirty = true → e.2.HasUncommitted = false ∧ e.2.HasUntracked = false))))) ∧
      l.Pairwise (fun a b => a.1 < b.1) ∧
      shellPromptStatuses states current checkDirty showName =
        .ok (((GoMap.get? states current).map (fun state =>
                if showName then
                  filepathBase state.Project.Name ++ ":" ++
                    (state.CurrentBranch ++ promptStatus checkDirty state)
                else state.CurrentBranch ++ promptStatus checkDirty state)).toList ++
          l.map (fun e => filepathBase e.2.Project.Name ++ ":" ++
            (e.2.CurrentBranch ++ promptStatus checkDirty e.2))) ∧
      (checkDirty = false → ∀ e ∈ states, e.2.CurrentBranch = "master" → e ∉ l) := by
  refine ⟨(sortedEntries states).filter
    (fun e => decide (e.1 ≠ current) && !promptPristine checkDirty e.2), ?_, ?_, ?_, ?_⟩
  · rw [← promptFilter_eq]
    exact (sortedEntries_perm hm).filter _
  · exact (sortedEntries_pairwise hm).sublist (List.filter_sublist _)
  · rw [shellPromptStatuses_eq states current checkDirty showName hm]
    rfl
  · intro hcd e _ hmaster hmem
    have := (List.mem_filter.mp hmem).2
    simp [promptPristine, hcd, hmaster] at this

/-! ## Lemmas on the pristine predicate of the data model -/

theorem specPristine_iff (state : ProjectState) :
    specPristine state = true ↔
      ∃ branch, state.Branches = [branch] ∧ branch.Name = "master" ∧
        state.HasUncommitted = false ∧ state.HasUntracked = false := by
  unfold specPristine
  split
  · next branch h =>
    simp [h, and_assoc]
  · next h =>
    simp only [Bool.false_eq_true, false_iff, not_exists, not_and]
    intro branch hb
    exact absurd hb (h branch)

/-- Under the invariant a pristine state is on master. -/
theorem currentBranch_of_specPristine {state : ProjectState} (hinv : state.Invariant)
    (hp : specPristine state = true) :
    state.CurrentBranch = "master" ∧ state.HasUncommitted = false ∧
      state.HasUntracked = false ∧ state.Branches.length = 1 := by
  obtain ⟨branch, hb, hname, hu, ht⟩ := (specPristine_iff state).mp hp
  refine ⟨?_, hu, ht, by simp [hb]⟩
  rcases hinv with h | ⟨b2, hmem, hcur⟩
  · simp [hb] at h
  · rw [hb] at hmem
    have : b2 = branch := by simpa using hmem
    rw [← hcur, this, hname]

/-! ## The listing loop in closed form -/

theorem listLoop_eq (quote : String → String) (states : ProjectStates) (np bf : Bool)
    (ks : List ProjectKey) (hks : ∀ k ∈ ks, k ∈ GoMap.keys states) :
    listLoop quote states np bf ks =
      .ok (((GoMap.entriesAt states ks).filter (fun e => !(np && listPristine e.2))).flatMap
        (fun e => listBlock quote bf e.2)) := by
  induction ks with
  | nil => simp [listLoop, GoMap.entriesAt]
  | cons k rest ih =>
    obtain ⟨st, hst⟩ := GoMap.get?_isSome_of_mem_keys (hks k (List.mem_cons_self _ _))
    have hrest : ∀ k ∈ rest, k ∈ GoMap.keys states :=
      fun k hk => hks k (List.mem_cons_of_mem _ hk)
    rw [GoMap.entriesAt_cons_some _ hst]
    simp only [listLoop, hst, ih hrest]
    cases np <;> cases hp : listPristine st <;>
      simp [hp, List.filter_cons, List.flatMap_cons, listBlock]

theorem runProjectList_eq (quote : String → String)
    (getProjectStates : Bool → Except String ProjectStates) (states : ProjectStates)
    (np bf : Bool) (hs : getProjectStates np = .ok states) :
    runProjectList quote getProjectStates np bf =
      .ok (((sortedEntries states).filter (fun e => !(np && listPristine e.2))).flatMap
        (fun e => listBlock quote bf e.2)) := by
  unfold runProjectList
  rw [hs]
  simp only []
  rw [listLoop_eq quote states np bf _ (fun k hk => sortKeys_mem.mp hk)]
  rfl

theorem branchLine_eq (state : ProjectState) (branch : BranchState) :
    branchLine state branch =
      "  " ++ (if branch.Name = state.CurrentBranch then "* " else "") ++ branch.Name ++
        (if branch.HasGerritMessage = true then " (exported to gerrit)" else "") := by
  unfold branchLine
  by_cases h1 : branch.Name = state.CurrentBranch <;>
    cases h2 : branch.HasGerritMessage <;>
    simp [h1, String.append_empty]

theorem listPristine_iff (state : ProjectState) :
    listPristine state = true ↔
      state.Branches.length = 1 ∧ state.CurrentBranch = "master" ∧
        state.HasUncommitted = false ∧ state.HasUntracked = false := by
  simp [listPristine, and_assoc]

/-- Under the invariant the pristine flag of the listing is the pristine
predicate of the data model. -/
theorem listPristine_eq_specPristine {state : ProjectState} (hinv : state.Invariant) :
    listPristine state = specPristine state := by
  cases hp : specPristine state with
  | true =>
    obtain ⟨hc, hu, ht, hl⟩ := currentBranch_of_specPristine hinv hp
    exact (listPristine_iff state).mpr ⟨hl, hc, hu, ht⟩
  | false =>
    cases hl : listPristine state with
    | false => rfl
    | true =>
      obtain ⟨hlen, hc, hu, ht⟩ := (listPristine_iff state).mp hl
      obtain ⟨branch, hb⟩ := List.length_eq_one.mp hlen
      have hname : branch.Name = "master" := by
        rcases hinv with h | ⟨b2, hmem, hcur⟩
        · simp [hb] at h
        · rw [hb] at hmem
          have : b2 = branch := by simpa using hmem
          rw [← this, hcur, hc]
      have : specPristine state = true :=
        (specPristine_iff state).mpr ⟨branch, hb, hname, hu, ht⟩
      rw [hp] at this
      cases this

/-! ## The pruning loop of the poll in closed form -/

theorem GoMap.isMap_filter {K V : Type} [DecidableEq K] {m : List (K × V)}
    (hm : GoMap.IsMap m) (p : K × V → Bool) : GoMap.IsMap (m.filter p) :=
  List.Nodup.sublist ((List.filter_sublist m).map Prod.fst) hm

theorem pruneLoop_eq (ks : List String) (update : Update) (hm : GoMap.IsMap update) :
    pruneLoop ks update = update.filter (fun e => decide (e.1 ∈ ks → e.2 ≠ [])) := by
  induction ks generalizing update with
  | nil => simp [pruneLoop]
  | cons k rest ih =>
    unfold pruneLoop
    simp only []
    cases hg : GoMap.get? update k with
    | none =>
      have hnot : ∀ e ∈ update, e.1 ≠ k := by
        intro e he hek
        have := GoMap.get?_of_mem hm (show (k, e.2) ∈ update by rw [← hek]; exact he)
        rw [hg] at this
        cases this
      simp only [Option.getD_none, List.length_nil, if_true]
      rw [GoMap.delete, ih _ (GoMap.isMap_filter hm _), List.filter_filter]
      apply List.filter_congr
      intro e he
      have := hnot e he
      simp [this]
    | some changes =>
      have hmem := GoMap.get?_mem hg
      have huniq : ∀ e ∈ update, e.1 = k → e.2 = changes := by
        intro e he hek
        have := GoMap.get?_of_mem hm (show (k, e.2) ∈ update by rw [← hek]; exact he)
        rw [hg] at this
        exact (Option.some.inj this).symm
      simp only [Option.getD_some]
      by_cases hlen : changes.length = 0
      · have hnil : changes = [] := List.length_eq_zero.mp hlen
        simp only [hlen, if_true]
        rw [GoMap.delete, ih _ (GoMap.isMap_filter hm _), List.filter_filter]
        apply List.filter_congr
        intro e he
        by_cases hek : e.1 = k
        · have := huniq e he hek
          simp [hek, this, hnil]
        · simp [hek]
      · have hne : changes ≠ [] := fun h => hlen (by simp [h])
        simp only [hlen, if_false]
        rw [ih _ hm]
        apply List.filter_congr
        intro e he
        by_cases hek : e.1 = k
        · have := huniq e he hek
          simp [hek, this, hne]
        · simp [hek]

theorem pruneUpdate_eq (update : Update) (hm : GoMap.IsMap update) :
    pruneUpdate update = update.filter (fun e => decide (e.2 ≠ [])) := by
  unfold pruneUpdate
  rw [pruneLoop_eq _ _ hm]
  apply List.filter_congr
  intro e he
  have : e.1 ∈ GoMap.keys update := GoMap.mem_keys_of_mem he
  simp [this]

/-! ## The map from tests to projects -/

theorem testProjectsInner_none (project : String) (tests : List String) (m : TestProjects)
    (t : String) :
    testProjectsInner project tests m t = none ↔ m t = none ∧ t ∉ tests := by
  induction tests generalizing m with
  | nil => simp [testProjectsInner]
  | cons test rest ih =>
    simp only [testProjectsInner, ih, testProjectsAppend, List.mem_cons, not_or]
    by_cases h : t = test
    · simp [h]
    · simp [h]

theorem testProjectsInner_mem (project : String) (tests : List String) (m : TestProjects)
    (t q : String) :
    q ∈ (testProjectsInner project tests m t).getD [] ↔
      q ∈ (m t).getD [] ∨ (q = project ∧ t ∈ tests) := by
  induction tests generalizing m with
  | nil => simp [testProjectsInner]
  | cons test rest ih =>
    simp only [testProjectsInner, ih, testProjectsAppend, List.mem_cons]
    by_cases h : t = test
    · subst h
      simp only [if_true, Option.getD_some, List.mem_append, List.mem_singleton, true_or,
        and_true]
      tauto
    · simp only [h, if_false, false_or]

theorem testProjectsOuter_none (config : Config) (projects : List String) (m : TestProjects)
    (t : String) :
    testProjectsOuter config projects m t = none ↔
      m t = none ∧ ∀ p ∈ projects, t ∉ config.ProjectTests [p] := by
  induction projects generalizing m with
  | nil => simp [testProjectsOuter]
  | cons project rest ih =>
    simp only [testProjectsOuter, ih, testProjectsInner_none, List.mem_cons, forall_eq_or_imp]
    tauto

theorem testProjectsOuter_mem (config : Config) (projects : List String) (m : TestProjects)
    (t q : String) :
    q ∈ (testProjectsOuter config projects m t).getD [] ↔
      q ∈ (m t).getD [] ∨ (q ∈ projects ∧ t ∈ config.ProjectTests [q]) := by
  induction projects generalizing m with
  | nil => simp [testProjectsOuter]
  | cons project rest ih =>
    simp only [testProjectsOuter, ih, testProjectsInner_mem, List.mem_cons]
    constructor
    · rintro ((h | ⟨rfl, h⟩) | ⟨h1, h2⟩)
      · exact Or.inl h
      · exact Or.inr ⟨Or.inl rfl, h⟩
      · exact Or.inr ⟨Or.inr h1, h2⟩
    · rintro (h | ⟨rfl | h1, h2⟩)
      · exact Or.inl (Or.inl h)
      · exact Or.inl (Or.inr ⟨rfl, h2⟩)
      · exact Or.inr ⟨h1, h2⟩

/-- A test is a key of the map iff it is a test of some project of the
configuration. -/
theorem buildTestProjects_none (config : Config) (t : String) :
    buildTestProjects config t = none ↔
      ∀ p ∈ config.Projects, t ∉ config.ProjectTests [p] := by
  simp [buildTestProjects, testProjectsOuter_none]

theorem buildTestProjects_mem (config : Config) (t q : String) :
    q ∈ (buildTestProjects config t).getD [] ↔
      q ∈ config.Projects ∧ t ∈ config.ProjectTests [q] := by
  simp [buildTestProjects, testProjectsOuter_mem]

/-! ## The resolution of the arguments of the poll -/

theorem pollResolve_known (tp : TestProjects) (args : List String) (acc : Finset String)
    (h : ∀ a ∈ args, tp a ≠ none) :
    ∃ s, pollResolve tp args acc = .ok s ∧
      ∀ p, p ∈ s ↔ p ∈ acc ∨ ∃ a ∈ args, p ∈ (tp a).getD [] := by
  induction args generalizing acc with
  | nil => exact ⟨acc, rfl, by simp⟩
  | cons arg rest ih =>
    cases hg : tp arg with
    | none => exact absurd hg (h arg (List.mem_cons_self _ _))
    | some projects =>
      obtain ⟨s, hs, hmem⟩ := ih (acc ∪ projects.toFinset)
        (fun a ha => h a (List.mem_cons_of_mem _ ha))
      refine ⟨s, by simp [pollResolve, hg, hs], ?_⟩
      intro p
      rw [hmem p]
      simp only [Finset.mem_union, List.mem_toFinset, List.mem_cons, exists_eq_or_imp, hg,
        Option.getD_some]
      tauto

theorem pollResolve_unknown (tp : TestProjects) (args : List String) (acc : Finset String)
    (t : String) (h : args.find? (fun a => (tp a).isNone) = some t) :
    pollResolve tp args acc = .error (.unknownTest t) := by
  induction args generalizing acc with
  | nil => simp at h
  | cons arg rest ih =>
    cases hg : tp arg with
    | none =>
      simp only [List.find?_cons, hg, Option.isNone_none] at h
      cases h
      simp [pollResolve, hg]
    | some projects =>
      simp only [List.find?_cons, hg, Option.isNone_some] at h
      simp only [pollResolve, hg]
      exact ih _ h

theorem find?_unknown_isSome (tp : TestProjects) (args : List String)
    (h : ∃ a ∈ args, tp a = none) :
    ∃ t, args.find? (fun a => (tp a).isNone) = some t := by
  obtain ⟨a, ha, hnone⟩ := h
  cases hf : args.find? (fun a => (tp a).isNone) with
  | some t => exact ⟨t, rfl⟩
  | none =>
    have := List.find?_eq_none.mp hf a ha
    simp [hnone] at this

/-! ## The run of the poll by cases -/

theorem runProjectPoll_of_error (loadConfig : Except String Config)
    (pollProjects : Finset String → Except String Update)
    (marshalIndent : Update → Except String String) (args : List String) (e : PollError)
    (h : pollProjectSet loadConfig args = .error e) :
    runProjectPoll loadConfig pollProjects marshalIndent args =
      { polled := none, stdout := [], err := some e } := by
  simp [runProjectPoll, h]

theorem runProjectPoll_polled (loadConfig : Except String Config)
    (pollProjects : Finset String → Except String Update)
    (marshalIndent : Update → Except String String) (args : List String) (s : Finset String)
    (h : pollProjectSet loadConfig args = .ok s) :
    (runProjectPoll loadConfig pollProjects marshalIndent args).polled = some s ∧
      ∀ t, (runProjectPoll loadConfig pollProjects marshalIndent args).err ≠
        some (.unknownTest t) := by
  simp only [runProjectPoll, h]
  cases pollProjects s with
  | error err => simp
  | ok update =>
    simp only []
    split
    · cases marshalIndent (pruneUpdate update) <;> simp
    · simp

theorem pollProjectSet_cons (config : Config) (args : List String) (hargs : args ≠ []) :
    pollProjectSet (.ok config) args = pollResolve (buildTestProjects config) args ∅ := by
  have : args.length > 0 := List.length_pos.mpr hargs
  simp [pollProjectSet, this]

/-! ## The clean-up: a write to the nil map -/

/-- When every lookup fails the variable `projects` stays nil and each
failure is written to stderr. -/
theorem cleanResolve_all_fail (findUnique : String → Project × Option String)
    (key : Project → ProjectKey) (args : List String) (stderr : List (String × String))
    (h : ∀ a ∈ args, (findUnique a).2 ≠ none) :
    cleanResolve findUnique key args stderr MapVar.nil =
      (stderr ++ args.map (fun a => ((findUnique a).1.Name, ((findUnique a).2).getD "")),
        .ok MapVar.nil) := by
  induction args generalizing stderr with
  | nil => simp [cleanResolve]
  | cons arg rest ih =>
    have h1 := h arg (List.mem_cons_self _ _)
    cases hf : findUnique arg with
    | mk p err =>
      cases err with
      | none => simp [hf] at h1
      | some e =>
        simp only [cleanResolve, hf]
        rw [ih _ (fun a ha => h a (List.mem_cons_of_mem _ ha))]
        simp [hf]

/-- As soon as one lookup succeeds the loop panics. -/
theorem cleanResolve_some_resolves (findUnique : String → Project × Option String)
    (key : Project → ProjectKey) (args : List String) (stderr : List (String × String))
    (h : ∃ a ∈ args, (findUnique a).2 = none) :
    (cleanResolve findUnique key args stderr MapVar.nil).2 =
      .error (.runtimePanic "assignment to entry in nil map") := by
  induction args generalizing stderr with
  | nil => simp at h
  | cons arg rest ih =>
    cases hf : findUnique arg with
    | mk p err =>
      cases err with
      | none => simp [cleanResolve, hf]
      | some e =>
        simp only [cleanResolve, hf]
        apply ih
        obtain ⟨a, ha, hnone⟩ := h
        rcases List.mem_cons.mp ha with rfl | ha2
        · rw [hf] at hnone
          cases hnone
        · exact ⟨a, ha2, hnone⟩

/-! ## Claims on jiri project shell-prompt -/

/-- C1: in runProjectShellPrompt, for every map of states, every current key
with a state in the map and every checkDirty and showName, the first status
emitted is the entry of the current project: currentBranch + suffix when
showName is false, basename(name) + ":" + currentBranch + suffix when it is
true. -/
theorem C1_current_entry_first (states : ProjectStates) (current : ProjectKey)
    (state : ProjectState) (checkDirty showName : Bool)
    (hm : GoMap.IsMap states) (hcur : GoMap.get? states current = some state) :
    ∃ rest, shellPromptStatuses states current checkDirty showName =
      .ok ((if showName then
              filepathBase state.Project.Name ++ ":" ++
                (state.CurrentBranch ++ promptStatus checkDirty state)
            else state.CurrentBranch ++ promptStatus checkDirty state) :: rest) := by
  rw [shellPromptStatuses_eq states current checkDirty showName hm, hcur]
  refine ⟨((sortedEntries states).filter
    (fun e => decide (e.1 ≠ current) && !promptPristine checkDirty e.2)).map
    (fun e => promptLong checkDirty e.2), ?_⟩
  cases showName <;> rfl

/-- Witness of C1: B is last in key order, is not pristine, and leads. -/
theorem C1_current_entry_first_witness :
    GoMap.IsMap scenarioStates ∧ GoMap.get? scenarioStates "B" = some scenarioB ∧
      ∃ rest, shellPromptStatuses scenarioStates "B" true true =
        .ok ((if true = true then
                filepathBase scenarioB.Project.Name ++ ":" ++
                  (scenarioB.CurrentBranch ++ promptStatus true scenarioB)
              else scenarioB.CurrentBranch ++ promptStatus true scenarioB) :: rest) :=
  ⟨by decide, by decide,
    C1_current_entry_first scenarioStates "B" scenarioB true true (by decide) (by decide)⟩

/-- C2: in runProjectShellPrompt the suffix appended to the current branch
name is "*" if only hasUncommitted, "%" if only hasUntracked, "*%" if both,
empty if neither, and empty whatever the flags when checkDirty is false. -/
theorem C2_status_suffix (state : ProjectState) :
    promptStatus true { state with HasUncommitted := true, HasUntracked := false } = "*" ∧
    promptStatus true { state with HasUncommitted := false, HasUntracked := true } = "%" ∧
    promptStatus true { state with HasUncommitted := true, HasUntracked := true } = "*%" ∧
    promptStatus true { state with HasUncommitted := false, HasUntracked := false } = "" ∧
    promptStatus false state = "" ∧
    (∀ checkDirty, promptShort checkDirty state =
      state.CurrentBranch ++ promptStatus checkDirty state) := by
  refine ⟨?_, ?_, ?_, ?_, ?_, ?_⟩
  · simp [promptStatus]
  · simp [promptStatus]
  · simp [promptStatus]
  · simp [promptStatus]
  · simp [promptStatus]
  · intro cd; rfl

/-- C3: in runProjectShellPrompt, for every map of states and current key,
the statuses after the entry of the current project are exactly the long
entries of the other projects that are not pristine for the prompt, in
ascending key order; pristine for the prompt means currentBranch is
"master" and, when checkDirty, neither uncommitted nor untracked changes.
With checkDirty false no project on master other than the current one
appears, dirty or not. -/
theorem C3_others_nonpristine_in_key_order (states : ProjectStates) (current : ProjectKey)
    (checkDirty showName : Bool) (hm : GoMap.IsMap states) :
    ∃ l : ProjectStates,
      l.Perm (states.filter (fun e => decide (e.1 ≠ current ∧
        ¬ (e.2.CurrentBranch = "master" ∧
          (checkDirty = true → e.2.HasUncommitted = false ∧ e.2.HasUntracked = false))))) ∧
      l.Pairwise (fun a b => a.1 < b.1) ∧
      shellPromptStatuses states current checkDirty showName =
        .ok (((GoMap.get? states current).map (fun state =>
                if showName then
                  filepathBase state.Project.Name ++ ":" ++
                    (state.CurrentBranch ++ promptStatus checkDirty state)
                else state.CurrentBranch ++ promptStatus checkDirty state)).toList ++
          l.map (fun e => filepathBase e.2.Project.Name ++ ":" ++
            (e.2.CurrentBranch ++ promptStatus checkDirty e.2))) ∧
      (checkDirty = false → ∀ e ∈ states, e.2.CurrentBranch = "master" → e ∉ l) := by
  exact shellPromptStatuses_spec states current checkDirty showName hm

/-- Witness of C3 on the registry of the scenario. -/
theorem C3_others_nonpristine_in_key_order_witness :
    GoMap.IsMap scenarioStates ∧
    ∃ l : ProjectStates,
      l.Perm (scenarioStates.filter (fun e => decide (e.1 ≠ "A" ∧
        ¬ (e.2.CurrentBranch = "master" ∧
          (false = true → e.2.HasUncommitted = false ∧ e.2.HasUntracked = false))))) ∧
      l.Pairwise (fun a b => a.1 < b.1) ∧
      shellPromptStatuses scenarioStates "A" false true =
        .ok (((GoMap.get? scenarioStates "A").map (fun state =>
                if true = true then
                  filepathBase state.Project.Name ++ ":" ++
                    (state.CurrentBranch ++ promptStatus false state)
                else state.CurrentBranch ++ promptStatus false state)).toList ++
          l.map (fun e => filepathBase e.2.Project.Name ++ ":" ++
            (e.2.CurrentBranch ++ promptStatus false e.2))) ∧
      (false = false → ∀ e ∈ scenarioStates, e.2.CurrentBranch = "master" → e ∉ l) :=
  ⟨by decide, C3_others_nonpristine_in_key_order scenarioStates "A" false true (by decide)⟩

/-- C4 as stated fails: with checkDirty = true, B (branches master and
feature, on master, clean) satisfies the invariant, is not the current
project and is not pristine in the sense of the data model, yet it is
omitted: the statuses are just the entry of A. Hence no list of the
non-pristine other projects can make up the rest of the output. -/
theorem C4_counterexample :
    (GoMap.IsMap scenarioStatesOnMaster ∧
      (∀ e ∈ scenarioStatesOnMaster, e.2.Invariant) ∧
      GoMap.get? scenarioStatesOnMaster "B" = some scenarioBOnMaster ∧
      "B" ≠ "A" ∧ specPristine scenarioBOnMaster = false ∧
      shellPromptStatuses scenarioStatesOnMaster "A" true false = .ok ["master"]) ∧
    ¬ (∀ (states : ProjectStates) (current : ProjectKey) (showName : Bool),
        GoMap.IsMap states → (∀ e ∈ states, e.2.Invariant) →
        ∃ l : ProjectStates,
          l.Perm (states.filter
            (fun e => decide (e.1 ≠ current ∧ specPristine e.2 = false))) ∧
          shellPromptStatuses states current true showName =
            .ok (((GoMap.get? states current).map (fun state =>
                    if showName then
                      filepathBase state.Project.Name ++ ":" ++
                        (state.CurrentBranch ++ promptStatus true state)
                    else state.CurrentBranch ++ promptStatus true state)).toList ++
              l.map (fun e => filepathBase e.2.Project.Name ++ ":" ++
                (e.2.CurrentBranch ++ promptStatus true e.2)))) := by
  have hinv : ∀ e ∈ scenarioStatesOnMaster, e.2.Invariant := by
    intro e he
    simp only [scenarioStatesOnMaster, List.mem_cons, List.mem_singleton, List.not_mem_nil,
      or_false] at he
    rcases he with rfl | rfl
    · exact Or.inr ⟨⟨"master", false⟩, by decide, rfl⟩
    · exact Or.inr ⟨⟨"master", false⟩, by decide, rfl⟩
  have hout : shellPromptStatuses scenarioStatesOnMaster "A" true false = .ok ["master"] := by
    rw [shellPromptStatuses, sortKeys_scenarioStatesOnMaster]
    rfl
  refine ⟨⟨by decide, hinv, by decide, by decide, by decide, hout⟩, ?_⟩
  intro h
  obtain ⟨l, hperm, hl⟩ := h scenarioStatesOnMaster "A" false (by decide) hinv
  rw [hout] at hl
  have hlen := hperm.length_eq
  have hfilter : (scenarioStatesOnMaster.filter
      (fun e => decide (e.1 ≠ "A" ∧ specPristine e.2 = false))).length = 1 := by
    decide
  rw [hfilter] at hlen
  have h2 := congrArg (fun r => match r with
    | Except.ok (xs : List String) => xs.length
    | Except.error (_ : Failure) => 0) hl
  have hget : GoMap.get? scenarioStatesOnMaster "A" = some scenarioA := by decide
  simp [hget, hlen] at h2

/-- C4, amended: in runProjectShellPrompt with checkDirty = true, for every
map of states satisfying the invariant, a project other than the current
one is omitted iff its current branch is "master" and it has neither
uncommitted nor untracked changes, whatever the number of its branches, and
every other one is appended in long form in key order. So every project
that is pristine in the sense of the data model is omitted, and the only
non-pristine ones omitted are clean, on master, with a number of branches
other than one. The scenario of the specification, with B on feature,
gives ["master", "B:feature"]. -/
theorem C4_prompt_omits_clean_master (states : ProjectStates) (current : ProjectKey)
    (showName : Bool) (hm : GoMap.IsMap states) (hinv : ∀ e ∈ states, e.2.Invariant) :
    (∃ l : ProjectStates,
      l.Perm (states.filter (fun e => decide (e.1 ≠ current ∧
        ¬ (e.2.CurrentBranch = "master" ∧ e.2.HasUncommitted = false ∧
          e.2.HasUntracked = false)))) ∧
      l.Pairwise (fun a b => a.1 < b.1) ∧
      shellPromptStatuses states current true showName =
        .ok (((GoMap.get? states current).map (fun state =>
                if showName then
                  filepathBase state.Project.Name ++ ":" ++
                    (state.CurrentBranch ++ promptStatus true state)
                else state.CurrentBranch ++ promptStatus true state)).toList ++
          l.map (fun e => filepathBase e.2.Project.Name ++ ":" ++
            (e.2.CurrentBranch ++ promptStatus true e.2))) ∧
      (∀ e ∈ states, specPristine e.2 = true → e ∉ l) ∧
      (∀ e ∈ states, e.1 ≠ current → specPristine e.2 = false → e ∉ l →
        e.2.CurrentBranch = "master" ∧ e.2.HasUncommitted = false ∧
          e.2.HasUntracked = false ∧ e.2.Branches.length ≠ 1)) ∧
    shellPromptStatuses scenarioStates "A" true false = .ok ["master", "B:feature"] := by
  constructor
  · obtain ⟨l, hperm, hsorted, hout, _⟩ :=
      shellPromptStatuses_spec states current true showName hm
    have hperm2 : l.Perm (states.filter (fun e => decide (e.1 ≠ current ∧
        ¬ (e.2.CurrentBranch = "master" ∧ e.2.HasUncommitted = false ∧
          e.2.HasUntracked = false)))) := by
      refine hperm.trans (List.Perm.of_eq ?_)
      apply List.filter_congr
      intro e _
      simp
    refine ⟨l, hperm2, hsorted, hout, ?_, ?_⟩
    · intro e he hp hmem
      have h1 := (List.mem_filter.mp (hperm2.mem_iff.mp hmem)).2
      obtain ⟨hc, hu, ht, _⟩ := currentBranch_of_specPristine (hinv e he) hp
      simp [hc, hu, ht] at h1
    · intro e he hne hp hnot
      have h1 : ¬ (e.1 ≠ current ∧ ¬ (e.2.CurrentBranch = "master" ∧
          e.2.HasUncommitted = false ∧ e.2.HasUntracked = false)) := by
        intro hcontra
        exact hnot (hperm2.mem_iff.mpr (List.mem_filter.mpr ⟨he, decide_eq_true hcontra⟩))
      have h2 : e.2.CurrentBranch = "master" ∧ e.2.HasUncommitted = false ∧
          e.2.HasUntracked = false := by
        by_contra hc
        exact h1 ⟨hne, hc⟩
      refine ⟨h2.1, h2.2.1, h2.2.2, ?_⟩
      intro hlen
      obtain ⟨branch, hb⟩ := List.length_eq_one.mp hlen
      have hname : branch.Name = "master" := by
        rcases hinv e he with h | ⟨b2, hmem, hcur⟩
        · simp [hb] at h
        · rw [hb] at hmem
          have : b2 = branch := by simpa using hmem
          rw [← this, hcur, h2.1]
      have : specPristine e.2 = true :=
        (specPristine_iff e.2).mpr ⟨branch, hb, hname, h2.2.1, h2.2.2⟩
      rw [hp] at this
      cases this
  · rw [shellPromptStatuses, sortKeys_scenarioStates]
    rfl

/-- Witness of the amended C4 on the registry with B on master. -/
theorem C4_prompt_omits_clean_master_witness :
    GoMap.IsMap scenarioStatesOnMaster ∧ (∀ e ∈ scenarioStatesOnMaster, e.2.Invariant) ∧
    ((∃ l : ProjectStates,
      l.Perm (scenarioStatesOnMaster.filter (fun e => decide (e.1 ≠ "A" ∧
        ¬ (e.2.CurrentBranch = "master" ∧ e.2.HasUncommitted = false ∧
          e.2.HasUntracked = false)))) ∧
      l.Pairwise (fun a b => a.1 < b.1) ∧
      shellPromptStatuses scenarioStatesOnMaster "A" true false =
        .ok (((GoMap.get? scenarioStatesOnMaster "A").map (fun state =>
                if false = true then
                  filepathBase state.Project.Name ++ ":" ++
                    (state.CurrentBranch ++ promptStatus true state)
                else state.CurrentBranch ++ promptStatus true state)).toList ++
          l.map (fun e => filepathBase e.2.Project.Name ++ ":" ++
            (e.2.CurrentBranch ++ promptStatus true e.2))) ∧
      (∀ e ∈ scenarioStatesOnMaster, specPristine e.2 = true → e ∉ l) ∧
      (∀ e ∈ scenarioStatesOnMaster, e.1 ≠ "A" → specPristine e.2 = false → e ∉ l →
        e.2.CurrentBranch = "master" ∧ e.2.HasUncommitted = false ∧
          e.2.HasUntracked = false ∧ e.2.Branches.length ≠ 1)) ∧
    shellPromptStatuses scenarioStates "A" true false = .ok ["master", "B:feature"]) :=
  have hinv : ∀ e ∈ scenarioStatesOnMaster, e.2.Invariant := by
    intro e he
    simp only [scenarioStatesOnMaster, List.mem_cons, List.mem_singleton, List.not_mem_nil,
      or_false] at he
    rcases he with rfl | rfl
    · exact Or.inr ⟨⟨"master", false⟩, by decide, rfl⟩
    · exact Or.inr ⟨⟨"master", false⟩, by decide, rfl⟩
  ⟨by decide, hinv, C4_prompt_omits_clean_master scenarioStatesOnMaster "A" false (by decide) hinv⟩

/-! ## Claims on jiri project list -/

/-- C8: in runProjectList with noPristineFlag = true, for every map of
states, the lines of a project are written iff its state is not pristine,
that is unless it has exactly one branch, is on "master" and has neither
uncommitted nor untracked changes; so another number of branches, an
uncommitted change, an untracked file or a current branch other than
"master" each makes the project listed, and a map of pristine projects
gives empty output. Under the invariant of the data model that flag is the
pristine predicate of the specification. -/
theorem C8_list_omits_exactly_pristine (quote : String → String)
    (getProjectStates : Bool → Except String ProjectStates) (states : ProjectStates)
    (branchesFlag : Bool) (hs : getProjectStates true = .ok states)
    (hm : GoMap.IsMap states) :
    (∃ l : ProjectStates,
      l.Perm (states.filter (fun e => decide (¬ (e.2.Branches.length = 1 ∧
        e.2.CurrentBranch = "master" ∧ e.2.HasUncommitted = false ∧
        e.2.HasUntracked = false)))) ∧
      l.Pairwise (fun a b => a.1 < b.1) ∧
      runProjectList quote getProjectStates true branchesFlag =
        .ok (l.flatMap (fun e => projectLine quote e.2 ::
          (if branchesFlag then e.2.Branches.map (branchLine e.2) else []))) ∧
      (∀ e ∈ states, (e.2.Branches.length ≠ 1 ∨ e.2.HasUncommitted = true ∨
        e.2.HasUntracked = true ∨ e.2.CurrentBranch ≠ "master") → e ∈ l) ∧
      (∀ e ∈ states, e.2.Invariant → (e ∈ l ↔ specPristine e.2 = false))) ∧
    ((∀ e ∈ states, e.2.Branches.length = 1 ∧ e.2.CurrentBranch = "master" ∧
        e.2.HasUncommitted = false ∧ e.2.HasUntracked = false) →
      runProjectList quote getProjectStates true branchesFlag = .ok []) := by
  have hfilter : ∀ l : ProjectStates,
      l.filter (fun e => !(true && listPristine e.2)) =
        l.filter (fun e => decide (¬ (e.2.Branches.length = 1 ∧
          e.2.CurrentBranch = "master" ∧ e.2.HasUncommitted = false ∧
          e.2.HasUntracked = false))) := by
    intro l
    apply List.filter_congr
    intro e _
    cases hp : listPristine e.2 with
    | true =>
      have := (listPristine_iff e.2).mp hp
      simp [this]
    | false =>
      have h : ¬ (e.2.Branches.length = 1 ∧ e.2.CurrentBranch = "master" ∧
          e.2.HasUncommitted = false ∧ e.2.HasUntracked = false) := by
        intro hc
        have := (listPristine_iff e.2).mpr hc
        rw [hp] at this
        cases this
      simp only [Bool.true_and, Bool.not_false]
      exact (decide_eq_true h).symm
  have hrun := runProjectList_eq quote getProjectStates states true branchesFlag hs
  have hmemfilter : ∀ e, e ∈ (sortedEntries states).filter
      (fun e => !(true && listPristine e.2)) ↔ e ∈ states ∧ listPristine e.2 = false := by
    intro e
    rw [List.mem_filter, (sortedEntries_perm hm).mem_iff]
    simp
  constructor
  · refine ⟨(sortedEntries states).filter (fun e => !(true && listPristine e.2)),
      ?_, ?_, ?_, ?_, ?_⟩
    · rw [← hfilter]
      exact (sortedEntries_perm hm).filter _
    · exact (sortedEntries_pairwise hm).sublist (List.filter_sublist _)
    · rw [hrun]
      rfl
    · intro e he hchange
      rw [hmemfilter]
      refine ⟨he, ?_⟩
      cases hp : listPristine e.2 with
      | false => rfl
      | true =>
        obtain ⟨hlen, hc, hu, ht⟩ := (listPristine_iff e.2).mp hp
        rcases hchange with h | h | h | h
        · exact absurd hlen h
        · rw [hu] at h
          cases h
        · rw [ht] at h
          cases h
        · exact absurd hc h
    · intro e he hinv
      rw [hmemfilter, listPristine_eq_specPristine hinv]
      exact ⟨fun h => h.2, fun h => ⟨he, h⟩⟩
  · intro hall
    rw [hrun]
    have : (sortedEntries states).filter (fun e => !(true && listPristine e.2)) = [] := by
      rw [List.filter_eq_nil_iff]
      intro e he
      have hes : e ∈ states := (sortedEntries_perm hm).mem_iff.mp he
      have := (listPristine_iff e.2).mpr (hall e hes)
      simp [this]
    rw [this]
    rfl

/-- Witness of C8 on the registry of the scenario. -/
theorem C8_list_omits_exactly_pristine_witness :
    (fun _ => Except.ok scenarioStates : Bool → Except String ProjectStates) true =
      .ok scenarioStates ∧
    GoMap.IsMap scenarioStates ∧
    ((∃ l : ProjectStates,
      l.Perm (scenarioStates.filter (fun e => decide (¬ (e.2.Branches.length = 1 ∧
        e.2.CurrentBranch = "master" ∧ e.2.HasUncommitted = false ∧
        e.2.HasUntracked = false)))) ∧
      l.Pairwise (fun a b => a.1 < b.1) ∧
      runProjectList (fun s => s) (fun _ => .ok scenarioStates) true true =
        .ok (l.flatMap (fun e => projectLine (fun s => s) e.2 ::
          (if true = true then e.2.Branches.map (branchLine e.2) else []))) ∧
      (∀ e ∈ scenarioStates, (e.2.Branches.length ≠ 1 ∨ e.2.HasUncommitted = true ∨
        e.2.HasUntracked = true ∨ e.2.CurrentBranch ≠ "master") → e ∈ l) ∧
      (∀ e ∈ scenarioStates, e.2.Invariant → (e ∈ l ↔ specPristine e.2 = false))) ∧
    ((∀ e ∈ scenarioStates, e.2.Branches.length = 1 ∧ e.2.CurrentBranch = "master" ∧
        e.2.HasUncommitted = false ∧ e.2.HasUntracked = false) →
      runProjectList (fun s => s) (fun _ => .ok scenarioStates) true true = .ok [])) :=
  ⟨rfl, by decide,
    C8_list_omits_exactly_pristine (fun s => s) (fun _ => .ok scenarioStates) scenarioStates
      true rfl (by decide)⟩

/-- C10: in runProjectList with noPristineFlag = false, for every map of
states, the output has exactly one name=/remote=/path= line per entry, in
strictly ascending key order whatever the iteration order of the map; with
branchesFlag each project line is followed by one line per branch in the
order of the state, marked "* " iff the branch name is the current branch
and ending in " (exported to gerrit)" iff the branch has the review
marker. -/
theorem C10_list_all_in_key_order (quote : String → String)
    (getProjectStates : Bool → Except String ProjectStates) (states : ProjectStates)
    (branchesFlag : Bool) (hs : getProjectStates false = .ok states)
    (hm : GoMap.IsMap states) :
    (∃ l : ProjectStates,
      l.Perm states ∧ l.Pairwise (fun a b => a.1 < b.1) ∧
      runProjectList quote getProjectStates false branchesFlag =
        .ok (l.flatMap (fun e =>
          ("name=" ++ quote e.2.Project.Name ++ " remote=" ++ quote e.2.Project.Remote ++
              " path=" ++ quote e.2.Project.Path) ::
            (if branchesFlag then
              e.2.Branches.map (fun branch =>
                "  " ++ (if branch.Name = e.2.CurrentBranch then "* " else "") ++
                  branch.Name ++
                  (if branch.HasGerritMessage = true then " (exported to gerrit)" else ""))
            else [])))) ∧
    (∀ states2 : ProjectStates, states2.Perm states →
      runProjectList quote (fun _ => .ok states2) false branchesFlag =
        runProjectList quote getProjectStates false branchesFlag) := by
  have hrun := runProjectList_eq quote getProjectStates states false branchesFlag hs
  constructor
  · refine ⟨sortedEntries states, sortedEntries_perm hm, sortedEntries_pairwise hm, ?_⟩
    rw [hrun]
    simp only [Bool.false_and, Bool.not_false, List.filter_true]
    congr 2
    funext e
    simp only [listBlock, projectLine]
    rw [show branchLine e.2 = _ from funext (branchLine_eq e.2)]
  · intro states2 hperm
    have hm2 : GoMap.IsMap states2 := (hperm.map Prod.fst).nodup_iff.mpr hm
    rw [hrun, runProjectList_eq quote (fun _ => .ok states2) states2 false branchesFlag rfl]
    have : sortedEntries states2 = sortedEntries states :=
      eq_of_perm_of_pairwise_key
        (((sortedEntries_perm hm2).trans hperm).trans (sortedEntries_perm hm).symm)
        (sortedEntries_pairwise hm2) (sortedEntries_pairwise hm)
    rw [this]

/-- Witness of C10 on the registry of the scenario. -/
theorem C10_list_all_in_key_order_witness :
    (fun _ => Except.ok scenarioStates : Bool → Except String ProjectStates) false =
      .ok scenarioStates ∧
    GoMap.IsMap scenarioStates ∧
    ∃ l : ProjectStates,
      l.Perm scenarioStates ∧ l.Pairwise (fun a b => a.1 < b.1) ∧
      runProjectList (fun s => s) (fun _ => .ok scenarioStates) false true =
        .ok (l.flatMap (fun e =>
          ("name=" ++ (fun s => s) e.2.Project.Name ++ " remote=" ++
              (fun s => s) e.2.Project.Remote ++
              " path=" ++ (fun s => s) e.2.Project.Path) ::
            (if true = true then
              e.2.Branches.map (fun branch =>
                "  " ++ (if branch.Name = e.2.CurrentBranch then "* " else "") ++
                  branch.Name ++
                  (if branch.HasGerritMessage = true then " (exported to gerrit)" else ""))
            else []))) :=
  ⟨rfl, by decide,
    (C10_list_all_in_key_order (fun s => s) (fun _ => .ok scenarioStates) scenarioStates
      true rfl (by decide)).1⟩

/-! ## Claims on jiri project poll -/

/-- C5: in runProjectPoll, for every map update returned by the poll, after
the pruning loop the map has exactly the entries of update whose list of
changes is not empty, each with its list unchanged, and the JSON text is
written iff the pruned map is not empty. -/
theorem C5_poll_prunes_empty (loadConfig : Except String Config)
    (pollProjects : Finset String → Except String Update)
    (marshalIndent : Update → Except String String) (args : List String)
    (projectSet : Finset String) (update : Update) (bytes : String)
    (hset : pollProjectSet loadConfig args = .ok projectSet)
    (hpoll : pollProjects projectSet = .ok update)
    (hm : GoMap.IsMap update)
    (hjson : marshalIndent (pruneUpdate update) = .ok bytes) :
    pruneUpdate update = update.filter (fun e => decide (e.2 ≠ [])) ∧
    (∀ name changes, (name, changes) ∈ pruneUpdate update ↔
      ((name, changes) ∈ update ∧ changes ≠ [])) ∧
    (∀ name changes, GoMap.get? (pruneUpdate update) name = some changes ↔
      (GoMap.get? update name = some changes ∧ changes ≠ [])) ∧
    ((runProjectPoll loadConfig pollProjects marshalIndent args).stdout ≠ [] ↔
      pruneUpdate update ≠ []) ∧
    (runProjectPoll loadConfig pollProjects marshalIndent args).stdout =
      (if pruneUpdate update ≠ [] then [bytes ++ "\n"] else []) ∧
    (runProjectPoll loadConfig pollProjects marshalIndent args).err = none := by
  have hprune := pruneUpdate_eq update hm
  have hmem : ∀ name changes, (name, changes) ∈ pruneUpdate update ↔
      ((name, changes) ∈ update ∧ changes ≠ []) := by
    intro name changes
    rw [hprune, List.mem_filter]
    simp
  have hm2 : GoMap.IsMap (pruneUpdate update) := by
    rw [hprune]
    exact GoMap.isMap_filter hm _
  have hout : (runProjectPoll loadConfig pollProjects marshalIndent args).stdout =
      (if pruneUpdate update ≠ [] then [bytes ++ "\n"] else []) ∧
      (runProjectPoll loadConfig pollProjects marshalIndent args).err = none := by
    simp only [runProjectPoll, hset, hpoll]
    by_cases hne : pruneUpdate update = []
    · simp [hne]
    · have hlen : (pruneUpdate update).length > 0 := List.length_pos.mpr hne
      simp [hne, hlen, hjson]
  refine ⟨hprune, hmem, ?_, ?_, hout.1, hout.2⟩
  · intro name changes
    constructor
    · intro h
      have h1 := (hmem name changes).mp (GoMap.get?_mem h)
      exact ⟨GoMap.get?_of_mem hm h1.1, h1.2⟩
    · intro h
      exact GoMap.get?_of_mem hm2 ((hmem name changes).mpr ⟨GoMap.get?_mem h.1, h.2⟩)
  · rw [hout.1]
    by_cases hne : pruneUpdate update = []
    · simp [hne]
    · simp [hne]

/-- Witness of C5: "q" without changes is removed, "p" is kept and printed. -/
theorem C5_poll_prunes_empty_witness :
    pollProjectSet (.error "no configuration") [] = .ok ∅ ∧
    (fun _ => Except.ok pollUpdate : Finset String → Except String Update) ∅ =
      .ok pollUpdate ∧
    GoMap.IsMap pollUpdate ∧
    (fun _ => Except.ok "json" : Update → Except String String) (pruneUpdate pollUpdate) =
      .ok "json" ∧
    (pruneUpdate pollUpdate = pollUpdate.filter (fun e => decide (e.2 ≠ [])) ∧
    (∀ name changes, (name, changes) ∈ pruneUpdate pollUpdate ↔
      ((name, changes) ∈ pollUpdate ∧ changes ≠ [])) ∧
    (∀ name changes, GoMap.get? (pruneUpdate pollUpdate) name = some changes ↔
      (GoMap.get? pollUpdate name = some changes ∧ changes ≠ [])) ∧
    ((runProjectPoll (.error "no configuration") (fun _ => .ok pollUpdate)
        (fun _ => .ok "json") []).stdout ≠ [] ↔ pruneUpdate pollUpdate ≠ []) ∧
    (runProjectPoll (.error "no configuration") (fun _ => .ok pollUpdate)
        (fun _ => .ok "json") []).stdout =
      (if pruneUpdate pollUpdate ≠ [] then ["json" ++ "\n"] else []) ∧
    (runProjectPoll (.error "no configuration") (fun _ => .ok pollUpdate)
        (fun _ => .ok "json") []).err = none) :=
  ⟨rfl, rfl, by decide, rfl,
    C5_poll_prunes_empty (.error "no configuration") (fun _ => .ok pollUpdate)
      (fun _ => .ok "json") [] ∅ pollUpdate "json" rfl rfl (by decide) rfl⟩

/-- C6 as stated fails: the only argument "t" is a key of the map built
from the configuration, yet the call fails, with the error of the poll. -/
theorem C6_counterexample :
    (∀ a ∈ ["t"], buildTestProjects pollConfig a ≠ none) ∧
    (runProjectPoll (.ok pollConfig) (fun _ => .error "remote unreachable")
      (fun _ => .ok "") ["t"]).err = some (.pollProjects "remote unreachable") ∧
    ¬ ((runProjectPoll (.ok pollConfig) (fun _ => .error "remote unreachable")
        (fun _ => .ok "") ["t"]).err ≠ none ↔
      ∃ a ∈ ["t"], buildTestProjects pollConfig a = none) := by
  have hkey : buildTestProjects pollConfig "t" = some ["p"] := by decide
  have herr : (runProjectPoll (.ok pollConfig) (fun _ => .error "remote unreachable")
      (fun _ => .ok "") ["t"]).err = some (.pollProjects "remote unreachable") := by
    simp [runProjectPoll, pollProjectSet, pollResolve, hkey]
  refine ⟨?_, herr, ?_⟩
  · intro a ha
    simp only [List.mem_singleton] at ha
    rw [ha, hkey]
    simp
  · rw [herr]
    simp [hkey]

/-- C6, amended: in runProjectPoll, for every non-empty list of arguments
and every configuration that loads, the call fails with the unknown-test
error iff some argument is not a key of the map from tests to projects, and
this is also exactly when the poll is not reached; that error names the
first such argument in argument order and nothing is printed. A test is a
key iff it is a test of some project of the configuration. -/
theorem C6_unknown_test_error (config : Config)
    (pollProjects : Finset String → Except String Update)
    (marshalIndent : Update → Except String String) (args : List String)
    (hargs : args ≠ []) :
    ((∃ t, (runProjectPoll (.ok config) pollProjects marshalIndent args).err =
        some (.unknownTest t)) ↔ ∃ a ∈ args, buildTestProjects config a = none) ∧
    ((runProjectPoll (.ok config) pollProjects marshalIndent args).polled = none ↔
      ∃ a ∈ args, buildTestProjects config a = none) ∧
    (∀ t, (runProjectPoll (.ok config) pollProjects marshalIndent args).err =
        some (.unknownTest t) →
      args.find? (fun a => (buildTestProjects config a).isNone) = some t ∧
      (runProjectPoll (.ok config) pollProjects marshalIndent args).polled = none ∧
      (runProjectPoll (.ok config) pollProjects marshalIndent args).stdout = []) ∧
    (∀ t, buildTestProjects config t = none ↔
      ∀ p ∈ config.Projects, t ∉ config.ProjectTests [p]) := by
  have hset := pollProjectSet_cons config args hargs
  by_cases hunk : ∃ a ∈ args, buildTestProjects config a = none
  · obtain ⟨t, ht⟩ := find?_unknown_isSome _ _ hunk
    have hres := pollResolve_unknown (buildTestProjects config) args ∅ t ht
    have hrun := runProjectPoll_of_error (.ok config) pollProjects marshalIndent args
      (.unknownTest t) (hset.trans hres)
    rw [hrun]
    refine ⟨⟨fun _ => hunk, fun _ => ⟨t, rfl⟩⟩, ⟨fun _ => hunk, fun _ => rfl⟩, ?_,
      buildTestProjects_none config⟩
    intro t2 h2
    simp only [Option.some.injEq, PollError.unknownTest.injEq] at h2
    rw [← h2]
    exact ⟨ht, rfl, rfl⟩
  · have hknown : ∀ a ∈ args, buildTestProjects config a ≠ none :=
      fun a ha hnone => hunk ⟨a, ha, hnone⟩
    obtain ⟨s, hs, _⟩ := pollResolve_known (buildTestProjects config) args ∅ hknown
    obtain ⟨hpolled, herr⟩ := runProjectPoll_polled (.ok config) pollProjects marshalIndent
      args s (hset.trans hs)
    refine ⟨⟨fun ⟨t, ht⟩ => absurd ht (herr t), fun h => absurd h hunk⟩,
      ⟨fun h => ?_, fun h => absurd h hunk⟩, ?_, buildTestProjects_none config⟩
    · rw [hpolled] at h
      cases h
    · intro t ht
      exact absurd ht (herr t)

/-- Witness of the amended C6. -/
theorem C6_unknown_test_error_witness :
    ["t", "nonexistent-test", "other"] ≠ [] ∧
    (((∃ t, (runProjectPoll (.ok pollConfig) (fun _ => .ok pollUpdate) (fun _ => .ok "json")
        ["t", "nonexistent-test", "other"]).err = some (.unknownTest t)) ↔
      ∃ a ∈ ["t", "nonexistent-test", "other"], buildTestProjects pollConfig a = none) ∧
    ((runProjectPoll (.ok pollConfig) (fun _ => .ok pollUpdate) (fun _ => .ok "json")
        ["t", "nonexistent-test", "other"]).polled = none ↔
      ∃ a ∈ ["t", "nonexistent-test", "other"], buildTestProjects pollConfig a = none) ∧
    (∀ t, (runProjectPoll (.ok pollConfig) (fun _ => .ok pollUpdate) (fun _ => .ok "json")
        ["t", "nonexistent-test", "other"]).err = some (.unknownTest t) →
      ["t", "nonexistent-test", "other"].find?
        (fun a => (buildTestProjects pollConfig a).isNone) = some t ∧
      (runProjectPoll (.ok pollConfig) (fun _ => .ok pollUpdate) (fun _ => .ok "json")
        ["t", "nonexistent-test", "other"]).polled = none ∧
      (runProjectPoll (.ok pollConfig) (fun _ => .ok pollUpdate) (fun _ => .ok "json")
        ["t", "nonexistent-test", "other"]).stdout = []) ∧
    (∀ t, buildTestProjects pollConfig t = none ↔
      ∀ p ∈ pollConfig.Projects, t ∉ pollConfig.ProjectTests [p])) :=
  ⟨by decide,
    C6_unknown_test_error pollConfig (fun _ => .ok pollUpdate) (fun _ => .ok "json")
      ["t", "nonexistent-test", "other"] (by decide)⟩

/-- C7: in runProjectPoll the set of project names handed to the poll is
empty when there is no argument, whatever the outcome of loading the
configuration; with arguments that are all known tests it is exactly the
set of the projects of the configuration that have at least one argument
among their tests, whatever the order and repetition of the arguments. -/
theorem C7_polled_project_set (loadConfig : Except String Config) (config : Config)
    (pollProjects : Finset String → Except String Update)
    (marshalIndent : Update → Except String String) (args : List String)
    (hargs : args ≠ [])
    (hknown : ∀ t ∈ args, ∃ p ∈ config.Projects, t ∈ config.ProjectTests [p]) :
    (runProjectPoll loadConfig pollProjects marshalIndent []).polled = some ∅ ∧
    (∃ s, (runProjectPoll (.ok config) pollProjects marshalIndent args).polled = some s ∧
      ∀ p, p ∈ s ↔ (p ∈ config.Projects ∧ ∃ t ∈ args, t ∈ config.ProjectTests [p])) ∧
    (∀ args2 : List String, (∀ t, t ∈ args2 ↔ t ∈ args) →
      (runProjectPoll (.ok config) pollProjects marshalIndent args2).polled =
        (runProjectPoll (.ok config) pollProjects marshalIndent args).polled) := by
  have hgen : ∀ l : List String, l ≠ [] →
      (∀ t ∈ l, ∃ p ∈ config.Projects, t ∈ config.ProjectTests [p]) →
      ∃ s, (runProjectPoll (.ok config) pollProjects marshalIndent l).polled = some s ∧
        ∀ p, p ∈ s ↔ (p ∈ config.Projects ∧ ∃ t ∈ l, t ∈ config.ProjectTests [p]) := by
    intro l hl hk
    have hne : ∀ a ∈ l, buildTestProjects config a ≠ none := by
      intro a ha hnone
      obtain ⟨p, hp, ht⟩ := hk a ha
      exact (buildTestProjects_none config a).mp hnone p hp ht
    obtain ⟨s, hs, hmem⟩ := pollResolve_known (buildTestProjects config) l ∅ hne
    refine ⟨s, (runProjectPoll_polled (.ok config) pollProjects marshalIndent l s
      ((pollProjectSet_cons config l hl).trans hs)).1, ?_⟩
    intro p
    rw [hmem p]
    simp only [Finset.not_mem_empty, false_or, buildTestProjects_mem]
    constructor
    · rintro ⟨a, ha, hp, ht⟩
      exact ⟨hp, a, ha, ht⟩
    · rintro ⟨hp, a, ha, ht⟩
      exact ⟨a, ha, hp, ht⟩
  refine ⟨?_, hgen args hargs hknown, ?_⟩
  · exact (runProjectPoll_polled loadConfig pollProjects marshalIndent [] ∅ rfl).1
  · intro args2 hsame
    have hne2 : args2 ≠ [] := by
      intro h
      obtain ⟨a, ha⟩ := List.exists_mem_of_ne_nil args hargs
      have := (hsame a).mpr ha
      rw [h] at this
      cases this
    obtain ⟨s, hs, hmem⟩ := hgen args hargs hknown
    obtain ⟨s2, hs2, hmem2⟩ := hgen args2 hne2
      (fun t ht => hknown t ((hsame t).mp ht))
    rw [hs, hs2]
    congr 1
    ext p
    rw [hmem p, hmem2 p]
    constructor
    · rintro ⟨hp, t, ht, h⟩
      exact ⟨hp, t, (hsame t).mp ht, h⟩
    · rintro ⟨hp, t, ht, h⟩
      exact ⟨hp, t, (hsame t).mpr ht, h⟩

/-- Witness of C7 on the configuration with project "p" and test "t". -/
theorem C7_polled_project_set_witness :
    ["t", "t"] ≠ [] ∧
    (∀ t ∈ ["t", "t"], ∃ p ∈ pollConfig.Projects, t ∈ pollConfig.ProjectTests [p]) ∧
    ((runProjectPoll (.error "no configuration") (fun _ => .ok pollUpdate)
        (fun _ => .ok "json") []).polled = some ∅ ∧
    (∃ s, (runProjectPoll (.ok pollConfig) (fun _ => .ok pollUpdate) (fun _ => .ok "json")
        ["t", "t"]).polled = some s ∧
      ∀ p, p ∈ s ↔ (p ∈ pollConfig.Projects ∧
        ∃ t ∈ ["t", "t"], t ∈ pollConfig.ProjectTests [p])) ∧
    (∀ args2 : List String, (∀ t, t ∈ args2 ↔ t ∈ ["t", "t"]) →
      (runProjectPoll (.ok pollConfig) (fun _ => .ok pollUpdate) (fun _ => .ok "json")
          args2).polled =
        (runProjectPoll (.ok pollConfig) (fun _ => .ok pollUpdate) (fun _ => .ok "json")
          ["t", "t"]).polled)) :=
  ⟨by decide, by decide,
    C7_polled_project_set (.error "no configuration") pollConfig (fun _ => .ok pollUpdate)
      (fun _ => .ok "json") ["t", "t"] (by decide) (by decide)⟩

/-! ## Claim on jiri project clean -/

/-- C9, on the code: with the single identifier "A", which FindUnique
resolves, the run panics on the write to the nil map `projects`:
resolution does not complete and CleanupProjects is never called. With an
identifier that does not resolve, the name written to stderr is the name of
the project returned with the error, not the identifier. -/
theorem C9_resolved_identifier_panics :
    (cleanFindUnique cleanLocalProjects "A").2 = none ∧
    (runProjectClean (.ok cleanLocalProjects) cleanFindUnique cleanKey (fun _ _ => none)
      false ["A"]).outcome = .error (.runtimePanic "assignment to entry in nil map") ∧
    (runProjectClean (.ok cleanLocalProjects) cleanFindUnique cleanKey (fun _ _ => none)
      false ["A"]).cleanup = none ∧
    (runProjectClean (.ok cleanLocalProjects) cleanFindUnique cleanKey (fun _ _ => none)
      false ["Z"]).stderr = [("", "no unique project")] ∧
    (runProjectClean (.ok cleanLocalProjects) cleanFindUnique cleanKey (fun _ _ => none)
      false ["Z"]).cleanup = some MapVar.nil := by
  refine ⟨by decide, ?_, ?_, ?_, ?_⟩ <;> rfl

end Jiri
